import Mathlib

/-!
Verification of the phone-line contract billing core (`src/contract.py`) of the
Telecommunications-Management-System repository.

The contract classes are translated directly from `src/contract.py`.  The
`Bill` ledger and `Call` record are collaborators of the core that live in
modules `bill` and `call` of the repository, which are not part of the given
sources; they are modelled from the specification (sections 3 and 6).
Money is represented by rationals, durations and minute counters by the
integers the Python code manipulates, and methods whose Python bodies would
raise on a missing bill or start date return `Option`.
-/

namespace TMS

/-- Calendar date, mirroring Python `datetime.date` (`year`, `month`, `day`). -/
structure Date where
  year : ℤ
  month : ℤ
  day : ℤ
deriving DecidableEq, Repr

/-- Modelled from the spec: the Call record collaborator (module `call`, not
under `src/`) exposes a single readable field `durationSeconds : int ≥ 0`. -/
structure Call where
  duration : ℕ
deriving DecidableEq, Repr

/-- Modelled from the spec: the Ledger/Bill collaborator (module `bill`, not
under `src/`) holds a plan label, a per-minute rate, a fixed-cost accumulator,
a billed-minute accumulator and a free-minute accumulator. -/
structure Bill where
  billType : String
  min_rate : ℚ
  fixed_cost : ℚ
  billed_min : ℤ
  free_min : ℤ
deriving DecidableEq, Repr

/-- Modelled from the spec: `setRate(planLabel, perMinuteRate)` sets the plan
label and the per-minute rate (set once per month). -/
def Bill.set_rates (b : Bill) (t : String) (r : ℚ) : Bill :=
  { b with billType := t, min_rate := r }

/-- Modelled from the spec: `addFixedCost(amount)` is additive and signed. -/
def Bill.add_fixed_cost (b : Bill) (a : ℚ) : Bill :=
  { b with fixed_cost := b.fixed_cost + a }

/-- Modelled from the spec: `addBilledMinutes(count)` accumulates billed
minutes additively. -/
def Bill.add_billed_minutes (b : Bill) (n : ℤ) : Bill :=
  { b with billed_min := b.billed_min + n }

/-- Modelled from the spec: `addFreeMinutes(count)` accumulates free minutes
additively. -/
def Bill.add_free_minutes (b : Bill) (n : ℤ) : Bill :=
  { b with free_min := b.free_min + n }

/-- Modelled from the spec: `getTotalCost()` reports fixed costs plus
rate × billed minutes. -/
def Bill.get_cost (b : Bill) : ℚ :=
  b.fixed_cost + b.min_rate * (b.billed_min : ℚ)

/-- Modelled from the spec: a fresh per-month ledger with all accumulators at
zero and no calls billed. -/
def freshBill : Bill :=
  { billType := "", min_rate := 0, fixed_cost := 0, billed_min := 0, free_min := 0 }

/-! Constants from the top of `src/contract.py`. -/

def MTM_MONTHLY_FEE : ℚ := 50
def TERM_MONTHLY_FEE : ℚ := 20
def TERM_DEPOSIT : ℚ := 300
def TERM_MINS : ℤ := 100
def MTM_MINS_COST : ℚ := 5 / 100
def TERM_MINS_COST : ℚ := 1 / 10
def PREPAID_MINS_COST : ℚ := 25 / 1000

/-- Embedding of `ceil(call.duration / 60.0)` for a nonnegative integer number
of seconds. -/
def callMins (d : ℕ) : ℕ := (d + 59) / 60

/-! Base class `Contract` (`src/contract.py`, lines 27-78). -/

structure Contract where
  start : Option Date
  bill : Option Bill
deriving DecidableEq, Repr

/-- Embedding of `Contract.bill_call` (lines 58-66): add the call's ceiling-rounded minutes
as billed minutes.  `none` models the `AttributeError` raised when no bill is
bound. -/
def Contract.bill_call (c : Contract) (call : Call) : Option Contract :=
  match c.bill with
  | none => none
  | some b => some { c with bill := some (b.add_billed_minutes (callMins call.duration)) }

/-- Embedding of `Contract.cancel_contract` (lines 68-78): clear `start` and return the
bill's cost together with the post-call contract state. -/
def Contract.cancel_contract (c : Contract) : Option (ℚ × Contract) :=
  match c.bill with
  | none => none
  | some b => some (b.get_cost, { c with start := none })

/-! `MTMContract` (`src/contract.py`, lines 81-130). -/

structure MTMContract where
  start : Option Date
  bill : Option Bill
deriving DecidableEq, Repr

/-- Embedding of `MTMContract.new_month` (lines 100-108): set the MTM rate, add the flat
monthly fee as a fixed cost, and store the bill. -/
def MTMContract.new_month (c : MTMContract) (month year : ℤ) (bill : Bill) : MTMContract :=
  let b := (bill.set_rates "MTM" MTM_MINS_COST).add_fixed_cost MTM_MONTHLY_FEE
  { c with bill := some b }

/-- Embedding of `MTMContract.bill_call` (lines 110-118): identical to the base class. -/
def MTMContract.bill_call (c : MTMContract) (call : Call) : Option MTMContract :=
  match c.bill with
  | none => none
  | some b => some { c with bill := some (b.add_billed_minutes (callMins call.duration)) }

/-- Embedding of `MTMContract.cancel_contract` (lines 120-130): identical to the base class. -/
def MTMContract.cancel_contract (c : MTMContract) : Option (ℚ × MTMContract) :=
  match c.bill with
  | none => none
  | some b => some (b.get_cost, { c with start := none })

/-! `TermContract` (`src/contract.py`, lines 133-211).  The Python attribute
`end` is a Lean keyword, so the field is named `endDate`. -/

structure TermContract where
  start : Option Date
  endDate : Date
  bill : Option Bill
  deposit : Bool
  minutes : ℕ
deriving DecidableEq, Repr

/-- Embedding of `TermContract.__init__` (lines 157-163): inactive bill, deposit flag
false, zero minutes. -/
def TermContract.mkNew (start endDate : Date) : TermContract :=
  { start := some start, endDate := endDate, bill := none, deposit := false, minutes := 0 }

/-- Embedding of `TermContract.new_month` (lines 165-186): set the term rate, add the
monthly fee, reset `minutes` to 0; in the start month add the deposit as a
fixed cost, otherwise set the `deposit` flag when the end-date condition
`(end.month <= month and end.year == year) or end.year < year` holds; store
the bill.  `none` models the `AttributeError` on a cancelled contract
(`start` is `None`). -/
def TermContract.new_month (c : TermContract) (month year : ℤ) (bill : Bill) :
    Option TermContract :=
  match c.start with
  | none => none
  | some s =>
    let b := (bill.set_rates "TERM" TERM_MINS_COST).add_fixed_cost TERM_MONTHLY_FEE
    if s.month = month ∧ s.year = year then
      some { c with minutes := 0, bill := some (b.add_fixed_cost TERM_DEPOSIT) }
    else if (c.endDate.month ≤ month ∧ c.endDate.year = year) ∨ c.endDate.year < year then
      some { c with minutes := 0, deposit := true, bill := some b }
    else
      some { c with minutes := 0, bill := some b }

/-- Embedding of `TermContract.bill_call` (lines 188-205): above the allowance all minutes
are billed; otherwise the overflow `max(minutes + mins - TERM_MINS, 0)` is
billed, the remainder is free; `minutes` always grows by the call's minutes. -/
def TermContract.bill_call (c : TermContract) (call : Call) : Option TermContract :=
  match c.bill with
  | none => none
  | some b =>
    let mins : ℕ := callMins call.duration
    if (c.minutes : ℤ) > TERM_MINS then
      some { c with bill := some (b.add_billed_minutes (mins : ℤ)),
                    minutes := c.minutes + mins }
    else
      let billed_mins : ℤ := max ((c.minutes : ℤ) + (mins : ℤ) - TERM_MINS) 0
      let free : ℤ := (mins : ℤ) - billed_mins
      some { c with
              bill := some ((b.add_billed_minutes billed_mins).add_free_minutes free),
              minutes := c.minutes + mins }

/-- Embedding of `TermContract.cancel_contract` (lines 207-211): clear `start`, refund the
deposit as a negative fixed cost when the flag is set, return the cost. -/
def TermContract.cancel_contract (c : TermContract) : Option (ℚ × TermContract) :=
  match c.bill with
  | none => none
  | some b =>
    if c.deposit then
      let b' := b.add_fixed_cost (-TERM_DEPOSIT)
      some (b'.get_cost, { c with start := none, bill := some b' })
    else
      some (b.get_cost, { c with start := none })

/-! Trace semantics for a TermContract: the external driver issues one
month-advance per calendar month followed by the month's calls (spec section
5); cancellation is modelled as the terminal step after the trace. -/

/-- One in-month driver operation on a TermContract. -/
inductive TermOp where
  | newMonth (month year : ℤ) (bill : Bill)
  | billCall (call : Call)
deriving Repr

/-- Dispatch one operation to the corresponding TermContract method. -/
def TermContract.step (c : TermContract) : TermOp → Option TermContract
  | .newMonth m y b => c.new_month m y b
  | .billCall call => c.bill_call call

/-- Run a list of driver operations, failing if any method would raise. -/
def runTerm (c : TermContract) : List TermOp → Option TermContract
  | [] => some c
  | op :: rest =>
    match c.step op with
    | none => none
    | some c' => runTerm c' rest

/-- The `(year, month)` pairs of the month-advance operations of a trace, in
order. -/
def newMonthDates (ops : List TermOp) : List (ℤ × ℤ) :=
  ops.filterMap fun op =>
    match op with
    | .newMonth m y _ => some (y, m)
    | .billCall _ => none

/-- Strict ordering of `(year, month)` pairs: an earlier calendar month. -/
def monthLt (a b : ℤ × ℤ) : Prop :=
  a.1 < b.1 ∨ (a.1 = b.1 ∧ a.2 < b.2)

instance (a b : ℤ × ℤ) : Decidable (monthLt a b) := by
  unfold monthLt; exact inferInstance

/-- The billed `(year, month)` pair has reached or passed the end date `e`,
compared at month granularity (the billed date is known only to its month). -/
def reachedEnd (e : Date) (p : ℤ × ℤ) : Prop :=
  e.year < p.1 ∨ (e.year = p.1 ∧ e.month ≤ p.2)

instance (e : Date) (p : ℤ × ℤ) : Decidable (reachedEnd e p) := by
  unfold reachedEnd; exact inferInstance

/-- Whether a trace operation is a month-advance whose month/year equals the
start date's month/year — the condition under which `TermContract.new_month`
executes `bill.add_fixed_cost(TERM_DEPOSIT)`. -/
def chargesDeposit (st : Date) : TermOp → Bool
  | .newMonth m y _ => decide (st.month = m ∧ st.year = y)
  | .billCall _ => false

/-! `PrepaidContract` (`src/contract.py`, lines 214-279). -/

structure PrepaidContract where
  start : Option Date
  bill : Option Bill
  balance : ℤ
deriving DecidableEq, Repr

/-- Embedding of `PrepaidContract.new_month` (lines 237-251): top up by 25 (charged as a
+25 fixed cost) when the balance is above −10, then set the prepaid rate and
add the (possibly updated) balance as a signed fixed cost. -/
def PrepaidContract.new_month (c : PrepaidContract) (month year : ℤ) (bill : Bill) :
    PrepaidContract :=
  let bal : ℤ := if c.balance > -10 then c.balance - 25 else c.balance
  let b1 : Bill := if c.balance > -10 then bill.add_fixed_cost 25 else bill
  let b2 := (b1.set_rates "PREPAID" PREPAID_MINS_COST).add_fixed_cost (bal : ℚ)
  { c with balance := bal, bill := some b2 }

/-- Embedding of `PrepaidContract.bill_call` (lines 253-261): identical to the base class. -/
def PrepaidContract.bill_call (c : PrepaidContract) (call : Call) : Option PrepaidContract :=
  match c.bill with
  | none => none
  | some b => some { c with bill := some (b.add_billed_minutes (callMins call.duration)) }

/-- Embedding of `PrepaidContract.cancel_contract` (lines 263-279): clear `start`; return 0
when the bill's cost is negative, the cost otherwise. -/
def PrepaidContract.cancel_contract (c : PrepaidContract) : Option (ℚ × PrepaidContract) :=
  match c.bill with
  | none => none
  | some b =>
    some (if b.get_cost < 0 then 0 else b.get_cost, { c with start := none })


/-! Equation lemmas: one per branch of each method, used throughout. -/

theorem TermContract.new_month_start_eq (c : TermContract) (st : Date) (m y : ℤ) (bill : Bill)
    (hs : c.start = some st) (h1 : st.month = m ∧ st.year = y) :
    c.new_month m y bill = some
      { c with
        minutes := 0,
        bill := some (((bill.set_rates "TERM" TERM_MINS_COST).add_fixed_cost
          TERM_MONTHLY_FEE).add_fixed_cost TERM_DEPOSIT) } := by
  simp only [TermContract.new_month, hs]
  rw [if_pos h1]

theorem TermContract.new_month_reach_eq (c : TermContract) (st : Date) (m y : ℤ) (bill : Bill)
    (hs : c.start = some st) (h1 : ¬(st.month = m ∧ st.year = y))
    (h2 : (c.endDate.month ≤ m ∧ c.endDate.year = y) ∨ c.endDate.year < y) :
    c.new_month m y bill = some
      { c with
        minutes := 0,
        deposit := true,
        bill := some ((bill.set_rates "TERM" TERM_MINS_COST).add_fixed_cost
          TERM_MONTHLY_FEE) } := by
  simp only [TermContract.new_month, hs]
  rw [if_neg h1, if_pos h2]

theorem TermContract.new_month_mid_eq (c : TermContract) (st : Date) (m y : ℤ) (bill : Bill)
    (hs : c.start = some st) (h1 : ¬(st.month = m ∧ st.year = y))
    (h2 : ¬((c.endDate.month ≤ m ∧ c.endDate.year = y) ∨ c.endDate.year < y)) :
    c.new_month m y bill = some
      { c with
        minutes := 0,
        bill := some ((bill.set_rates "TERM" TERM_MINS_COST).add_fixed_cost
          TERM_MONTHLY_FEE) } := by
  simp only [TermContract.new_month, hs]
  rw [if_neg h1, if_neg h2]

theorem TermContract.bill_call_over_eq (c : TermContract) (b : Bill) (call : Call)
    (hb : c.bill = some b) (hm : (c.minutes : ℤ) > TERM_MINS) :
    c.bill_call call = some
      { c with
        bill := some (b.add_billed_minutes ((callMins call.duration : ℕ) : ℤ)),
        minutes := c.minutes + callMins call.duration } := by
  simp only [TermContract.bill_call, hb]
  rw [if_pos hm]

theorem TermContract.bill_call_under_eq (c : TermContract) (b : Bill) (call : Call)
    (hb : c.bill = some b) (hm : ¬((c.minutes : ℤ) > TERM_MINS)) :
    c.bill_call call = some
      { c with
        bill := some ((b.add_billed_minutes
            (max ((c.minutes : ℤ) + (callMins call.duration : ℤ) - TERM_MINS) 0)).add_free_minutes
          ((callMins call.duration : ℤ)
            - max ((c.minutes : ℤ) + (callMins call.duration : ℤ) - TERM_MINS) 0)),
        minutes := c.minutes + callMins call.duration } := by
  simp only [TermContract.bill_call, hb]
  rw [if_neg hm]

theorem TermContract.cancel_dep_eq (c : TermContract) (b : Bill)
    (hb : c.bill = some b) (hd : c.deposit = true) :
    c.cancel_contract = some ((b.add_fixed_cost (-TERM_DEPOSIT)).get_cost,
      { c with start := none, bill := some (b.add_fixed_cost (-TERM_DEPOSIT)) }) := by
  simp only [TermContract.cancel_contract, hb]
  rw [if_pos hd]

theorem TermContract.cancel_nodep_eq (c : TermContract) (b : Bill)
    (hb : c.bill = some b) (hd : c.deposit = false) :
    c.cancel_contract = some (b.get_cost, { c with start := none }) := by
  simp only [TermContract.cancel_contract, hb]
  rw [if_neg (by simp [hd])]

theorem MTMContract.bill_call_eq (c : MTMContract) (b : Bill) (call : Call)
    (hb : c.bill = some b) :
    c.bill_call call
      = some { c with bill := some (b.add_billed_minutes (callMins call.duration)) } := by
  simp only [MTMContract.bill_call, hb]

theorem prepaid_cancel_eq (c : PrepaidContract) (b : Bill) (hb : c.bill = some b) :
    c.cancel_contract
      = some (if b.get_cost < 0 then 0 else b.get_cost, { c with start := none }) := by
  simp only [PrepaidContract.cancel_contract, hb]

theorem contract_cancel_eq (c : Contract) (b : Bill) (hb : c.bill = some b) :
    c.cancel_contract = some (b.get_cost, { c with start := none }) := by
  simp only [Contract.cancel_contract, hb]

/-! Claim theorems. -/

/-- C5: every `PrepaidContract.new_month` call decreases the balance by
exactly 25 and adds a +25 fixed cost to the bill when the balance is above
−10 on entry, leaves the balance alone and adds no top-up charge otherwise,
and in both cases then posts the (possibly updated) balance as a signed fixed
cost on the stored bill. -/
theorem prepaid_new_month_topup (c : PrepaidContract) (month year : ℤ) (bill : Bill) :
    (c.balance > -10 → (c.new_month month year bill).balance = c.balance - 25) ∧
    (c.balance ≤ -10 → (c.new_month month year bill).balance = c.balance) ∧
    ∃ b', (c.new_month month year bill).bill = some b' ∧
      b'.fixed_cost = bill.fixed_cost + (if c.balance > -10 then 25 else 0)
        + (((c.new_month month year bill).balance : ℤ) : ℚ) := by
  by_cases h : c.balance > -10
  · refine ⟨fun _ => ?_, fun h' => absurd h (not_lt.mpr h'), ?_⟩
    · simp [PrepaidContract.new_month, h]
    · refine ⟨_, rfl, ?_⟩
      simp [PrepaidContract.new_month, h, Bill.add_fixed_cost, Bill.set_rates]
  · refine ⟨fun h' => absurd h' h, fun _ => ?_, ?_⟩
    · simp [PrepaidContract.new_month, h]
    · refine ⟨_, rfl, ?_⟩
      simp [PrepaidContract.new_month, h, Bill.add_fixed_cost, Bill.set_rates]

theorem prepaid_new_month_topup_witness :
    ((PrepaidContract.mk none none (-5)).new_month 1 2020 freshBill).balance = -5 - 25 ∧
    ∃ b', ((PrepaidContract.mk none none (-5)).new_month 1 2020 freshBill).bill = some b' ∧
      b'.fixed_cost = freshBill.fixed_cost
        + (if ((PrepaidContract.mk none none (-5)).balance : ℤ) > -10 then 25 else 0)
        + ((((PrepaidContract.mk none none (-5)).new_month 1 2020 freshBill).balance : ℤ) : ℚ) :=
  ⟨(prepaid_new_month_topup (PrepaidContract.mk none none (-5)) 1 2020 freshBill).1
      (by decide),
    (prepaid_new_month_topup (PrepaidContract.mk none none (-5)) 1 2020 freshBill).2.2⟩

/-- C6: `PrepaidContract.cancel_contract` with an active bill returns 0 when
the bill's total cost is negative and the total cost otherwise, so the
returned amount is never negative. -/
theorem prepaid_cancel_nonneg (c : PrepaidContract) (b : Bill) (hb : c.bill = some b) :
    ∃ amt c', c.cancel_contract = some (amt, c') ∧
      amt = (if b.get_cost < 0 then 0 else b.get_cost) ∧ 0 ≤ amt := by
  refine ⟨_, _, prepaid_cancel_eq c b hb, rfl, ?_⟩
  by_cases h : b.get_cost < 0
  · simp [h]
  · simp [h, not_lt.mp h]

theorem prepaid_cancel_nonneg_witness :
    ∃ amt c', (PrepaidContract.mk (some ⟨2020, 1, 1⟩)
        (some (freshBill.add_fixed_cost (-15))) (-15)).cancel_contract = some (amt, c') ∧
      amt = (if (freshBill.add_fixed_cost (-15)).get_cost < 0 then 0
          else (freshBill.add_fixed_cost (-15)).get_cost) ∧ 0 ≤ amt :=
  prepaid_cancel_nonneg _ (freshBill.add_fixed_cost (-15)) rfl

/-- C7: `MTMContract.bill_call` on an active bill whose rate is the MTM
per-minute rate increases the bill's total cost by exactly
`callMins duration * MTM_MINS_COST` and leaves the fixed costs unchanged. -/
theorem mtm_bill_call_cost (c : MTMContract) (b : Bill) (call : Call)
    (hb : c.bill = some b) (hr : b.min_rate = MTM_MINS_COST) :
    ∃ c' b', c.bill_call call = some c' ∧ c'.bill = some b' ∧
      b'.get_cost = b.get_cost + (callMins call.duration : ℚ) * MTM_MINS_COST ∧
      b'.fixed_cost = b.fixed_cost := by
  refine ⟨_, _, MTMContract.bill_call_eq c b call hb, rfl, ?_, rfl⟩
  simp only [Bill.get_cost, Bill.add_billed_minutes, hr]
  push_cast
  ring

theorem mtm_bill_call_cost_witness :
    ∃ c' b', (MTMContract.mk none (some (freshBill.set_rates "MTM" MTM_MINS_COST))).bill_call
        ⟨150⟩ = some c' ∧ c'.bill = some b' ∧
      b'.get_cost = (freshBill.set_rates "MTM" MTM_MINS_COST).get_cost
        + (callMins 150 : ℚ) * MTM_MINS_COST ∧
      b'.fixed_cost = (freshBill.set_rates "MTM" MTM_MINS_COST).fixed_cost :=
  mtm_bill_call_cost _ (freshBill.set_rates "MTM" MTM_MINS_COST) ⟨150⟩ rfl rfl

/-- C10: `TermContract.bill_call` with the minutes counter strictly above the
100-minute allowance adds exactly the call's ceiling-rounded minutes as billed
minutes and leaves the free-minute accumulator unchanged. -/
theorem term_bill_call_over_allowance (c : TermContract) (b : Bill) (call : Call)
    (hb : c.bill = some b) (hm : (c.minutes : ℤ) > TERM_MINS) :
    ∃ c' b', c.bill_call call = some c' ∧ c'.bill = some b' ∧
      b'.billed_min = b.billed_min + (callMins call.duration : ℤ) ∧
      b'.free_min = b.free_min :=
  ⟨_, _, TermContract.bill_call_over_eq c b call hb hm, rfl, rfl, rfl⟩

theorem term_bill_call_over_allowance_witness :
    ∃ c' b', (TermContract.mk (some ⟨2020, 1, 1⟩) ⟨2022, 1, 1⟩ (some freshBill) false
        101).bill_call ⟨240⟩ = some c' ∧ c'.bill = some b' ∧
      b'.billed_min = freshBill.billed_min + (callMins 240 : ℤ) ∧
      b'.free_min = freshBill.free_min :=
  term_bill_call_over_allowance _ freshBill ⟨240⟩ rfl (by decide)

/-- C8: the TermContract minutes counter is reset to exactly 0 by every
successful `new_month`, grows by exactly the call's ceiling-rounded minutes
(hence never shrinks) on every successful `bill_call`, and is untouched by
`cancel_contract`, so no usage carries over between months. -/
theorem term_minutes_reset_and_growth :
    (∀ (c : TermContract) (st : Date) (m y : ℤ) (bill : Bill), c.start = some st →
        ∃ c', c.new_month m y bill = some c' ∧ c'.minutes = 0) ∧
    (∀ (c : TermContract) (b : Bill) (call : Call), c.bill = some b →
        ∃ c', c.bill_call call = some c' ∧
          c'.minutes = c.minutes + callMins call.duration ∧ c.minutes ≤ c'.minutes) ∧
    (∀ (c : TermContract) (b : Bill), c.bill = some b →
        ∃ amt c', c.cancel_contract = some (amt, c') ∧ c'.minutes = c.minutes) := by
  refine ⟨?_, ?_, ?_⟩
  · intro c st m y bill hs
    by_cases h1 : st.month = m ∧ st.year = y
    · exact ⟨_, TermContract.new_month_start_eq c st m y bill hs h1, rfl⟩
    · by_cases h2 : (c.endDate.month ≤ m ∧ c.endDate.year = y) ∨ c.endDate.year < y
      · exact ⟨_, TermContract.new_month_reach_eq c st m y bill hs h1 h2, rfl⟩
      · exact ⟨_, TermContract.new_month_mid_eq c st m y bill hs h1 h2, rfl⟩
  · intro c b call hb
    by_cases hm : (c.minutes : ℤ) > TERM_MINS
    · exact ⟨_, TermContract.bill_call_over_eq c b call hb hm, rfl, Nat.le_add_right _ _⟩
    · exact ⟨_, TermContract.bill_call_under_eq c b call hb hm, rfl, Nat.le_add_right _ _⟩
  · intro c b hb
    by_cases hd : c.deposit
    · exact ⟨_, _, TermContract.cancel_dep_eq c b hb hd, rfl⟩
    · exact ⟨_, _, TermContract.cancel_nodep_eq c b hb (by simpa using hd), rfl⟩

theorem term_minutes_reset_and_growth_witness :
    (∃ c', (TermContract.mk (some ⟨2020, 1, 1⟩) ⟨2022, 1, 1⟩ none true 55).new_month
        1 2020 freshBill = some c' ∧ c'.minutes = 0) ∧
    (∃ c', (TermContract.mk (some ⟨2020, 1, 1⟩) ⟨2022, 1, 1⟩ (some freshBill) false
        7).bill_call ⟨90⟩ = some c' ∧
      c'.minutes = 7 + callMins 90 ∧ 7 ≤ c'.minutes) ∧
    (∃ amt c', (TermContract.mk (some ⟨2020, 1, 1⟩) ⟨2022, 1, 1⟩ (some freshBill) false
        7).cancel_contract = some (amt, c') ∧ c'.minutes = 7) :=
  ⟨term_minutes_reset_and_growth.1 _ ⟨2020, 1, 1⟩ 1 2020 freshBill rfl,
   term_minutes_reset_and_growth.2.1 _ freshBill ⟨90⟩ rfl,
   term_minutes_reset_and_growth.2.2 _ freshBill rfl⟩

theorem mtm_cancel_eq (c : MTMContract) (b : Bill) (hb : c.bill = some b) :
    c.cancel_contract = some (b.get_cost, { c with start := none }) := by
  simp only [MTMContract.cancel_contract, hb]

/-- The decomposed end-of-term condition of `TermContract.new_month` is the
month-granularity date comparison billed-date ≥ end. -/
theorem reachedEnd_iff_code (e : Date) (m y : ℤ) :
    reachedEnd e (y, m) ↔ ((e.month ≤ m ∧ e.year = y) ∨ e.year < y) := by
  unfold reachedEnd
  tauto

/-- C2: on every `TermContract.new_month` whose billed month/year differs from
the start month/year, the deposit flag becomes true exactly when the billed
`(year, month)` has reached or passed the end date (compared at month
granularity, the only granularity the billed date has), and is left unchanged
otherwise. -/
theorem term_new_month_deposit_flag (c : TermContract) (st : Date) (m y : ℤ) (bill : Bill)
    (hs : c.start = some st) (hne : ¬(st.month = m ∧ st.year = y)) :
    ∃ c', c.new_month m y bill = some c' ∧
      c'.deposit = (if reachedEnd c.endDate (y, m) then true else c.deposit) := by
  by_cases h2 : (c.endDate.month ≤ m ∧ c.endDate.year = y) ∨ c.endDate.year < y
  · refine ⟨_, TermContract.new_month_reach_eq c st m y bill hs hne h2, ?_⟩
    rw [if_pos ((reachedEnd_iff_code c.endDate m y).mpr h2)]
  · refine ⟨_, TermContract.new_month_mid_eq c st m y bill hs hne h2, ?_⟩
    rw [if_neg (fun hr => h2 ((reachedEnd_iff_code c.endDate m y).mp hr))]

theorem term_new_month_deposit_flag_witness :
    ∃ c', (TermContract.mk (some ⟨2020, 1, 1⟩) ⟨2020, 3, 15⟩ none false 0).new_month
        3 2020 freshBill = some c' ∧
      c'.deposit = (if reachedEnd (⟨2020, 3, 15⟩ : Date) (2020, 3) then true
        else (TermContract.mk (some ⟨2020, 1, 1⟩) ⟨2020, 3, 15⟩ none false 0).deposit) :=
  term_new_month_deposit_flag _ ⟨2020, 1, 1⟩ 3 2020 freshBill rfl (by decide)

/-- C4: immediately after `new_month` on a fresh bill with no calls billed,
the bill's total cost is the plan's fixed monthly fee: 50 for MTM; 20 for
Term plus the 300 deposit in the start month; and for Prepaid the signed
(post-top-up) balance plus 25 when a top-up fired. -/
theorem new_month_fresh_bill_cost :
    (∀ (c : MTMContract) (m y : ℤ),
        ∃ b, (c.new_month m y freshBill).bill = some b ∧ b.get_cost = MTM_MONTHLY_FEE) ∧
    (∀ (c : TermContract) (st : Date) (m y : ℤ), c.start = some st →
        ∃ c' b, c.new_month m y freshBill = some c' ∧ c'.bill = some b ∧
          b.get_cost = TERM_MONTHLY_FEE
            + (if st.month = m ∧ st.year = y then TERM_DEPOSIT else 0)) ∧
    (∀ (c : PrepaidContract) (m y : ℤ),
        ∃ b, (c.new_month m y freshBill).bill = some b ∧
          b.get_cost = (((c.new_month m y freshBill).balance : ℤ) : ℚ)
            + (if c.balance > -10 then 25 else 0)) := by
  refine ⟨?_, ?_, ?_⟩
  · intro c m y
    refine ⟨_, rfl, ?_⟩
    simp [MTMContract.new_month, Bill.get_cost, Bill.add_fixed_cost, Bill.set_rates, freshBill]
  · intro c st m y hs
    by_cases h1 : st.month = m ∧ st.year = y
    · refine ⟨_, _, TermContract.new_month_start_eq c st m y freshBill hs h1, rfl, ?_⟩
      simp [Bill.get_cost, Bill.add_fixed_cost, Bill.set_rates, freshBill, h1]
    · by_cases h2 : (c.endDate.month ≤ m ∧ c.endDate.year = y) ∨ c.endDate.year < y
      · refine ⟨_, _, TermContract.new_month_reach_eq c st m y freshBill hs h1 h2, rfl, ?_⟩
        simp [Bill.get_cost, Bill.add_fixed_cost, Bill.set_rates, freshBill, h1]
      · refine ⟨_, _, TermContract.new_month_mid_eq c st m y freshBill hs h1 h2, rfl, ?_⟩
        simp [Bill.get_cost, Bill.add_fixed_cost, Bill.set_rates, freshBill, h1]
  · intro c m y
    refine ⟨_, rfl, ?_⟩
    by_cases h : c.balance > -10 <;>
      simp [PrepaidContract.new_month, Bill.get_cost, Bill.add_fixed_cost, Bill.set_rates,
        freshBill, h]

theorem new_month_fresh_bill_cost_witness :
    (∃ b, ((MTMContract.mk none none).new_month 1 2020 freshBill).bill = some b ∧
      b.get_cost = MTM_MONTHLY_FEE) ∧
    (∃ c' b, (TermContract.mkNew ⟨2020, 1, 1⟩ ⟨2022, 1, 1⟩).new_month 1 2020 freshBill
        = some c' ∧ c'.bill = some b ∧
      b.get_cost = TERM_MONTHLY_FEE
        + (if (⟨2020, 1, 1⟩ : Date).month = 1 ∧ (⟨2020, 1, 1⟩ : Date).year = 2020
            then TERM_DEPOSIT else 0)) ∧
    (∃ b, ((PrepaidContract.mk none none (-40)).new_month 1 2020 freshBill).bill = some b ∧
      b.get_cost = ((((PrepaidContract.mk none none (-40)).new_month 1 2020
          freshBill).balance : ℤ) : ℚ)
        + (if ((PrepaidContract.mk none none (-40)).balance : ℤ) > -10 then 25 else 0)) :=
  ⟨new_month_fresh_bill_cost.1 (MTMContract.mk none none) 1 2020,
   new_month_fresh_bill_cost.2.1 (TermContract.mkNew ⟨2020, 1, 1⟩ ⟨2022, 1, 1⟩)
     ⟨2020, 1, 1⟩ 1 2020 rfl,
   new_month_fresh_bill_cost.2.2 (PrepaidContract.mk none none (-40)) 1 2020⟩

/-- C1 as stated is false: with the minutes counter at 105 (above the
allowance) and a 60-second call, the code adds 1 billed minute, not
`max(0, 105 + 1 - 100) = 6` as the uniform formula of the claim demands. -/
theorem term_bill_call_formula_counterexample :
    Option.map (fun c' => Option.map Bill.billed_min c'.bill)
      ((TermContract.mk (some ⟨2020, 1, 1⟩) ⟨2022, 1, 1⟩ (some freshBill) false 105).bill_call
        ⟨60⟩) = some (some 1) ∧
    max (((105 : ℕ) : ℤ) + (callMins 60 : ℤ) - TERM_MINS) 0 ≠ 1 := by
  exact ⟨by decide, by decide⟩

/-- C1 amended: `TermContract.bill_call` always increments the minutes counter
by the call's ceiling-rounded minutes, and whenever the counter is at most the
100-minute allowance on entry the billed-minute delta is
`max(0, minutes + mins - 100)` and the free-minute delta is the rest of the
call's minutes; above the allowance the whole call is billed instead (C10). -/
theorem term_bill_call_allowance_split (c : TermContract) (b : Bill) (call : Call)
    (hb : c.bill = some b) :
    ∃ c', c.bill_call call = some c' ∧
      c'.minutes = c.minutes + callMins call.duration ∧
      ((c.minutes : ℤ) ≤ TERM_MINS →
        ∃ b', c'.bill = some b' ∧
          b'.billed_min = b.billed_min
            + max ((c.minutes : ℤ) + (callMins call.duration : ℤ) - TERM_MINS) 0 ∧
          b'.free_min = b.free_min + ((callMins call.duration : ℤ)
            - max ((c.minutes : ℤ) + (callMins call.duration : ℤ) - TERM_MINS) 0)) := by
  by_cases hm : (c.minutes : ℤ) > TERM_MINS
  · exact ⟨_, TermContract.bill_call_over_eq c b call hb hm, rfl,
      fun hle => absurd hm (not_lt.mpr hle)⟩
  · exact ⟨_, TermContract.bill_call_under_eq c b call hb hm, rfl,
      fun _ => ⟨_, rfl, rfl, rfl⟩⟩

theorem term_bill_call_allowance_split_witness :
    ∃ c', (TermContract.mk (some ⟨2020, 1, 1⟩) ⟨2022, 1, 1⟩ (some freshBill) false
        0).bill_call ⟨6300⟩ = some c' ∧
      c'.minutes = 0 + callMins 6300 ∧
      (((0 : ℕ) : ℤ) ≤ TERM_MINS →
        ∃ b', c'.bill = some b' ∧
          b'.billed_min = freshBill.billed_min
            + max (((0 : ℕ) : ℤ) + (callMins 6300 : ℤ) - TERM_MINS) 0 ∧
          b'.free_min = freshBill.free_min + ((callMins 6300 : ℤ)
            - max (((0 : ℕ) : ℤ) + (callMins 6300 : ℤ) - TERM_MINS) 0)) :=
  term_bill_call_allowance_split
    (TermContract.mk (some ⟨2020, 1, 1⟩) ⟨2022, 1, 1⟩ (some freshBill) false 0)
    freshBill ⟨6300⟩ rfl

/-- C9 as stated is false: after `cancel_contract` the start field is cleared
but the contract still holds the reference to its bill (the code never resets
`self.bill`). -/
theorem cancel_retains_bill_counterexample :
    Option.map (fun r => (r.2.start, r.2.bill))
      ((Contract.mk (some ⟨2020, 1, 1⟩) (some freshBill)).cancel_contract)
      = some (none, some freshBill) ∧
    some freshBill ≠ (none : Option Bill) := by
  exact ⟨by decide, by decide⟩

/-- C9 amended: for every plan, `cancel_contract` clears the start field,
marking the line inactive, but the bill reference is retained unchanged (for
TermContract, with the deposit refund applied to it when due). -/
theorem cancel_clears_start_keeps_bill :
    (∀ (c : Contract) (b : Bill), c.bill = some b →
        ∃ amt c', c.cancel_contract = some (amt, c') ∧ c'.start = none ∧ c'.bill = some b) ∧
    (∀ (c : MTMContract) (b : Bill), c.bill = some b →
        ∃ amt c', c.cancel_contract = some (amt, c') ∧ c'.start = none ∧ c'.bill = some b) ∧
    (∀ (c : PrepaidContract) (b : Bill), c.bill = some b →
        ∃ amt c', c.cancel_contract = some (amt, c') ∧ c'.start = none ∧ c'.bill = some b) ∧
    (∀ (c : TermContract) (b : Bill), c.bill = some b →
        ∃ amt c', c.cancel_contract = some (amt, c') ∧ c'.start = none ∧
          c'.bill = some (if c.deposit then b.add_fixed_cost (-TERM_DEPOSIT) else b)) := by
  refine ⟨?_, ?_, ?_, ?_⟩
  · intro c b hb
    exact ⟨_, _, contract_cancel_eq c b hb, rfl, hb⟩
  · intro c b hb
    exact ⟨_, _, mtm_cancel_eq c b hb, rfl, hb⟩
  · intro c b hb
    exact ⟨_, _, prepaid_cancel_eq c b hb, rfl, hb⟩
  · intro c b hb
    by_cases hd : c.deposit
    · refine ⟨_, _, TermContract.cancel_dep_eq c b hb hd, rfl, ?_⟩
      rw [if_pos hd]
    · refine ⟨_, _, TermContract.cancel_nodep_eq c b hb (by simpa using hd), rfl, ?_⟩
      rw [if_neg hd]
      exact hb

theorem cancel_clears_start_keeps_bill_witness :
    (∃ amt c', (Contract.mk (some ⟨2020, 1, 1⟩) (some freshBill)).cancel_contract
        = some (amt, c') ∧ c'.start = none ∧ c'.bill = some freshBill) ∧
    (∃ amt c', (MTMContract.mk (some ⟨2020, 1, 1⟩) (some freshBill)).cancel_contract
        = some (amt, c') ∧ c'.start = none ∧ c'.bill = some freshBill) ∧
    (∃ amt c', (PrepaidContract.mk (some ⟨2020, 1, 1⟩) (some freshBill) 0).cancel_contract
        = some (amt, c') ∧ c'.start = none ∧ c'.bill = some freshBill) ∧
    (∃ amt c', (TermContract.mk (some ⟨2020, 1, 1⟩) ⟨2022, 1, 1⟩ (some freshBill) true
        0).cancel_contract = some (amt, c') ∧ c'.start = none ∧
      c'.bill = some (if (TermContract.mk (some ⟨2020, 1, 1⟩) ⟨2022, 1, 1⟩ (some freshBill)
          true 0).deposit then freshBill.add_fixed_cost (-TERM_DEPOSIT) else freshBill)) :=
  ⟨cancel_clears_start_keeps_bill.1 _ freshBill rfl,
   cancel_clears_start_keeps_bill.2.1 _ freshBill rfl,
   cancel_clears_start_keeps_bill.2.2.1 _ freshBill rfl,
   cancel_clears_start_keeps_bill.2.2.2 _ freshBill rfl⟩

/-! Trace lemmas for the TermContract deposit lifecycle. -/

theorem runTerm_cons_some (c c₁ : TermContract) (op : TermOp) (rest : List TermOp)
    (h : c.step op = some c₁) :
    runTerm c (op :: rest) = runTerm c₁ rest := by
  simp only [runTerm, h]

theorem newMonthDates_cons_new (m y : ℤ) (b : Bill) (rest : List TermOp) :
    newMonthDates (TermOp.newMonth m y b :: rest) = (y, m) :: newMonthDates rest := rfl

theorem newMonthDates_cons_call (call : Call) (rest : List TermOp) :
    newMonthDates (TermOp.billCall call :: rest) = newMonthDates rest := rfl

theorem get_cost_add_fixed (b : Bill) (a : ℚ) :
    (b.add_fixed_cost a).get_cost = b.get_cost + a := by
  simp only [Bill.get_cost, Bill.add_fixed_cost]
  ring

/-- The deposit fixed cost is added by `TermContract.new_month` exactly on the
operations that `chargesDeposit` selects: every successful month-advance adds
the monthly fee, plus the deposit precisely when the billed month/year equals
the start month/year. -/
theorem new_month_fixed_cost_adds_deposit (c : TermContract) (s : Date) (m y : ℤ)
    (bl : Bill) (c' : TermContract) (hs : c.start = some s)
    (h : c.new_month m y bl = some c') :
    ∃ bb, c'.bill = some bb ∧ bb.fixed_cost = bl.fixed_cost + TERM_MONTHLY_FEE
      + (if chargesDeposit s (TermOp.newMonth m y bl) then TERM_DEPOSIT else 0) := by
  by_cases h1 : s.month = m ∧ s.year = y
  · rw [TermContract.new_month_start_eq c s m y bl hs h1, Option.some.injEq] at h
    subst h
    refine ⟨_, rfl, ?_⟩
    simp [chargesDeposit, h1, Bill.add_fixed_cost, Bill.set_rates]
  · by_cases h2 : (c.endDate.month ≤ m ∧ c.endDate.year = y) ∨ c.endDate.year < y
    · rw [TermContract.new_month_reach_eq c s m y bl hs h1 h2, Option.some.injEq] at h
      subst h
      refine ⟨_, rfl, ?_⟩
      simp [chargesDeposit, h1, Bill.add_fixed_cost, Bill.set_rates]
    · rw [TermContract.new_month_mid_eq c s m y bl hs h1 h2, Option.some.injEq] at h
      subst h
      refine ⟨_, rfl, ?_⟩
      simp [chargesDeposit, h1, Bill.add_fixed_cost, Bill.set_rates]

/-- Running a trace none of whose month-advances hits the start month/year
succeeds, preserves `start` and `endDate`, keeps a bill bound, and ends with
the deposit flag set exactly when it was already set or some month-advance of
the trace reached the end date. -/
theorem runTerm_away_from_start (st : Date) (ops : List TermOp) :
    ∀ (c : TermContract) (b : Bill), c.start = some st → c.bill = some b →
      (∀ p ∈ newMonthDates ops, ¬(st.month = p.2 ∧ st.year = p.1)) →
      ∃ c', runTerm c ops = some c' ∧ c'.start = some st ∧ c'.endDate = c.endDate ∧
        (∃ b', c'.bill = some b') ∧
        (c'.deposit = true ↔
          (c.deposit = true ∨ ∃ p ∈ newMonthDates ops, reachedEnd c.endDate p)) := by
  induction ops with
  | nil =>
    intro c b hs hb _
    exact ⟨c, rfl, hs, rfl, ⟨b, hb⟩, by simp [newMonthDates]⟩
  | cons op rest ih =>
    intro c b hs hb hall
    have hall1 : ∀ p ∈ newMonthDates [op], ¬(st.month = p.2 ∧ st.year = p.1) := by
      intro p hp
      refine hall p ?_
      have hsplit : newMonthDates (op :: rest) = newMonthDates [op] ++ newMonthDates rest := by
        cases op <;> rfl
      rw [hsplit, List.mem_append]
      exact Or.inl hp
    have hrest : ∀ p ∈ newMonthDates rest, ¬(st.month = p.2 ∧ st.year = p.1) := by
      intro p hp
      refine hall p ?_
      have hsplit : newMonthDates (op :: rest) = newMonthDates [op] ++ newMonthDates rest := by
        cases op <;> rfl
      rw [hsplit, List.mem_append]
      exact Or.inr hp
    obtain ⟨c₁, b₁, hstep, hst1, hend1, hbill1, hdep1⟩ :
        ∃ c₁ b₁, c.step op = some c₁ ∧ c₁.start = some st ∧ c₁.endDate = c.endDate ∧
          c₁.bill = some b₁ ∧
          (c₁.deposit = true ↔
            (c.deposit = true ∨ ∃ p ∈ newMonthDates [op], reachedEnd c.endDate p)) := by
      match op with
      | TermOp.billCall call =>
        by_cases hm : (c.minutes : ℤ) > TERM_MINS
        · exact ⟨_, _, TermContract.bill_call_over_eq c b call hb hm, hs, rfl, rfl,
            by simp [newMonthDates]⟩
        · exact ⟨_, _, TermContract.bill_call_under_eq c b call hb hm, hs, rfl, rfl,
            by simp [newMonthDates]⟩
      | TermOp.newMonth m y bl =>
        have hne : ¬(st.month = m ∧ st.year = y) := by
          refine hall1 (y, m) ?_
          simp [newMonthDates]
        by_cases h2 : (c.endDate.month ≤ m ∧ c.endDate.year = y) ∨ c.endDate.year < y
        · refine ⟨_, _, TermContract.new_month_reach_eq c st m y bl hs hne h2, hs, rfl, rfl, ?_⟩
          simp only [newMonthDates, List.filterMap, List.mem_singleton, true_iff]
          exact Or.inr ⟨(y, m), by simp, (reachedEnd_iff_code c.endDate m y).mpr h2⟩
        · refine ⟨_, _, TermContract.new_month_mid_eq c st m y bl hs hne h2, hs, rfl, rfl, ?_⟩
          constructor
          · intro hd
            exact Or.inl hd
          · rintro (hd | ⟨p, hp, hr⟩)
            · exact hd
            · have hp' : p = (y, m) := by
                simpa [newMonthDates] using hp
              subst hp'
              exact absurd ((reachedEnd_iff_code c.endDate m y).mp hr) h2
    rw [runTerm_cons_some c c₁ op rest hstep]
    obtain ⟨c', h1', h2', h3', h4', h5'⟩ := ih c₁ b₁ hst1 hbill1 hrest
    refine ⟨c', h1', h2', h3'.trans hend1, h4', ?_⟩
    rw [hend1] at h5'
    have hsplit : (∃ p ∈ newMonthDates (op :: rest), reachedEnd c.endDate p) ↔
        ((∃ p ∈ newMonthDates [op], reachedEnd c.endDate p) ∨
          ∃ p ∈ newMonthDates rest, reachedEnd c.endDate p) := by
      have happ : newMonthDates (op :: rest) = newMonthDates [op] ++ newMonthDates rest := by
        cases op <;> rfl
      rw [happ]
      constructor
      · rintro ⟨p, hp, hr⟩
        rcases List.mem_append.mp hp with hp' | hp'
        · exact Or.inl ⟨p, hp', hr⟩
        · exact Or.inr ⟨p, hp', hr⟩
      · rintro (⟨p, hp, hr⟩ | ⟨p, hp, hr⟩)
        · exact ⟨p, List.mem_append.mpr (Or.inl hp), hr⟩
        · exact ⟨p, List.mem_append.mpr (Or.inr hp), hr⟩
    rw [h5', hdep1, hsplit]
    exact or_assoc

/-- C3: along a driver trace that begins with the month-advance of the start
month and then advances through strictly increasing months, on a term whose
start month precedes its end month: exactly one operation of the trace is a
month-advance hitting the start month/year (the branch that adds the 300.00
deposit fixed cost, see `new_month_fixed_cost_adds_deposit`), the run
succeeds, and cancelling afterwards applies the −300.00 refund to the final
bill exactly when some month-advance of the trace reached the declared end
month/year; cancelling with no such month never refunds the deposit. -/
theorem term_deposit_once_refund_iff (st e : Date) (b₀ : Bill) (rest : List TermOp)
    (hmono : List.Pairwise monthLt
      (newMonthDates (TermOp.newMonth st.month st.year b₀ :: rest)))
    (hlt : monthLt (st.year, st.month) (e.year, e.month)) :
    ∃ c₁ b₁, runTerm (TermContract.mkNew st e) (TermOp.newMonth st.month st.year b₀ :: rest)
        = some c₁ ∧
      List.countP (chargesDeposit st) (TermOp.newMonth st.month st.year b₀ :: rest) = 1 ∧
      c₁.bill = some b₁ ∧
      ∃ amt c₂, c₁.cancel_contract = some (amt, c₂) ∧
        amt = b₁.get_cost
          + (if ∃ p ∈ newMonthDates (TermOp.newMonth st.month st.year b₀ :: rest),
              reachedEnd e p then -TERM_DEPOSIT else 0) := by
  rw [newMonthDates_cons_new] at hmono
  obtain ⟨hfirst, -⟩ := List.pairwise_cons.mp hmono
  have hrest : ∀ p ∈ newMonthDates rest, ¬(st.month = p.2 ∧ st.year = p.1) := by
    rintro ⟨py, pm⟩ hp ⟨h1, h2⟩
    have hm := hfirst (py, pm) hp
    rcases hm with h | ⟨h3, h4⟩ <;> omega
  have hstep : (TermContract.mkNew st e).step (TermOp.newMonth st.month st.year b₀)
      = some ⟨some st, e, some (((b₀.set_rates "TERM" TERM_MINS_COST).add_fixed_cost
        TERM_MONTHLY_FEE).add_fixed_cost TERM_DEPOSIT), false, 0⟩ := by
    show (TermContract.mkNew st e).new_month st.month st.year b₀ = _
    rw [TermContract.new_month_start_eq (TermContract.mkNew st e) st st.month st.year b₀
      rfl ⟨rfl, rfl⟩]
    rfl
  obtain ⟨c', h1', hst', hend', ⟨b₁, hb₁⟩, hdep'⟩ :=
    runTerm_away_from_start st rest
      ⟨some st, e, some (((b₀.set_rates "TERM" TERM_MINS_COST).add_fixed_cost
        TERM_MONTHLY_FEE).add_fixed_cost TERM_DEPOSIT), false, 0⟩
      (((b₀.set_rates "TERM" TERM_MINS_COST).add_fixed_cost
        TERM_MONTHLY_FEE).add_fixed_cost TERM_DEPOSIT) rfl rfl hrest
  have hdep : c'.deposit = true ↔ ∃ p ∈ newMonthDates rest, reachedEnd e p := by
    rw [hdep']
    simp
  have hcount : List.countP (chargesDeposit st)
      (TermOp.newMonth st.month st.year b₀ :: rest) = 1 := by
    rw [List.countP_cons]
    have h0 : List.countP (chargesDeposit st) rest = 0 := by
      rw [List.countP_eq_zero]
      intro a ha
      match a with
      | TermOp.billCall call => simp [chargesDeposit]
      | TermOp.newMonth m y bl =>
        have hmem : (y, m) ∈ newMonthDates rest :=
          List.mem_filterMap.mpr ⟨TermOp.newMonth m y bl, ha, rfl⟩
        simpa [chargesDeposit] using hrest (y, m) hmem
    rw [h0]
    simp [chargesDeposit]
  have hnotfirst : ¬ reachedEnd e (st.year, st.month) := by
    unfold monthLt at hlt
    unfold reachedEnd
    simp only at hlt ⊢
    omega
  have hExIff : (∃ p ∈ newMonthDates (TermOp.newMonth st.month st.year b₀ :: rest),
      reachedEnd e p) ↔ ∃ p ∈ newMonthDates rest, reachedEnd e p := by
    rw [newMonthDates_cons_new]
    constructor
    · rintro ⟨p, hp, hr⟩
      rcases List.mem_cons.mp hp with hp' | hp'
      · subst hp'
        exact absurd hr hnotfirst
      · exact ⟨p, hp', hr⟩
    · rintro ⟨p, hp, hr⟩
      exact ⟨p, List.mem_cons_of_mem _ hp, hr⟩
  refine ⟨c', b₁, ?_, hcount, hb₁, ?_⟩
  · rw [runTerm_cons_some _ _ _ rest hstep]
    exact h1'
  · by_cases hEx : ∃ p ∈ newMonthDates (TermOp.newMonth st.month st.year b₀ :: rest),
        reachedEnd e p
    · have hd : c'.deposit = true := hdep.mpr (hExIff.mp hEx)
      refine ⟨_, _, TermContract.cancel_dep_eq c' b₁ hb₁ hd, ?_⟩
      rw [get_cost_add_fixed, if_pos hEx]
    · have hd : c'.deposit = false := by
        rcases hc : c'.deposit with _ | _
        · rfl
        · exact absurd (hExIff.mpr (hdep.mp hc)) hEx
      refine ⟨_, _, TermContract.cancel_nodep_eq c' b₁ hb₁ hd, ?_⟩
      rw [if_neg hEx, add_zero]

theorem term_deposit_once_refund_iff_witness :
    ∃ c₁ b₁, runTerm (TermContract.mkNew ⟨2020, 1, 1⟩ ⟨2020, 3, 1⟩)
        (TermOp.newMonth 1 2020 freshBill ::
          [TermOp.newMonth 2 2020 freshBill, TermOp.newMonth 3 2020 freshBill]) = some c₁ ∧
      List.countP (chargesDeposit ⟨2020, 1, 1⟩)
        (TermOp.newMonth 1 2020 freshBill ::
          [TermOp.newMonth 2 2020 freshBill, TermOp.newMonth 3 2020 freshBill]) = 1 ∧
      c₁.bill = some b₁ ∧
      ∃ amt c₂, c₁.cancel_contract = some (amt, c₂) ∧
        amt = b₁.get_cost
          + (if ∃ p ∈ newMonthDates (TermOp.newMonth 1 2020 freshBill ::
                [TermOp.newMonth 2 2020 freshBill, TermOp.newMonth 3 2020 freshBill]),
              reachedEnd ⟨2020, 3, 1⟩ p then -TERM_DEPOSIT else 0) :=
  term_deposit_once_refund_iff ⟨2020, 1, 1⟩ ⟨2020, 3, 1⟩ freshBill
    [TermOp.newMonth 2 2020 freshBill, TermOp.newMonth 3 2020 freshBill]
    (by decide) (by decide)

end TMS
